import Mathlib

/-!
Verification of `Static/JavaScript/contact.js`.

The file contains two independent browser scripts:

1. a `submit` handler on the `#contact-form` element: it calls
   `e.preventDefault()`, trims the values of `#name`, `#email` and
   `#message`, and if any trimmed value is falsy (i.e. the empty string)
   writes `"Please fill in all fields."` to `#form-message` and returns;
   otherwise it writes `"Thank you for reaching out!"` and calls
   `this.reset()`;

2. a `DOMContentLoaded` handler: it selects all `.progress` elements and,
   for each one, captures `bar.style.width`, sets the width to `'0%'`, and
   schedules a 300 ms one-shot timeout that restores the captured width.

We embed both handlers as pure functions.  DOM mutations of the submit
handler are modelled as an explicit effect trace interpreted over a form
state; the animator is modelled as a function from the list of matched
bars to the list of reset bars together with the list of scheduled timer
tasks, and firing a task performs the deferred width write.
-/

/-- Model of JavaScript `String.prototype.trim`: remove leading and
trailing whitespace characters. -/
def jsTrim (s : String) : String :=
  String.mk
    ((((s.data.dropWhile Char.isWhitespace).reverse.dropWhile
        Char.isWhitespace)).reverse)

/-- The form-related DOM state read and written by the submit handler:
the three text inputs, the `#form-message` status node, and whether
`preventDefault` has been called on the current event. -/
structure FormDom where
  nameField : String
  emailField : String
  messageField : String
  statusText : String
  defaultPrevented : Bool
deriving DecidableEq, Repr

/-- A single DOM side effect performed by the submit handler. -/
inductive FormEffect where
  | preventDefault
  | setStatus (text : String)
  | resetForm
deriving DecidableEq, Repr

/-- `true` exactly on `setStatus` effects (writes to `#form-message`). -/
def FormEffect.isStatusWrite : FormEffect → Bool
  | .setStatus _ => true
  | _ => false

/-- The submit handler of `contact.js`, as the trace of DOM effects it
performs, in program order.  A trimmed JavaScript string is falsy exactly
when it is empty, so `!name || !email || !message` is modelled by the
emptiness disjunction. -/
def submitHandlerTrace (d : FormDom) : List FormEffect :=
  let name := jsTrim d.nameField
  let email := jsTrim d.emailField
  let message := jsTrim d.messageField
  if name = "" ∨ email = "" ∨ message = "" then
    [.preventDefault, .setStatus "Please fill in all fields."]
  else
    [.preventDefault, .setStatus "Thank you for reaching out!", .resetForm]

/-- Interpretation of one effect on the form DOM state. -/
def applyFormEffect (d : FormDom) : FormEffect → FormDom
  | .preventDefault => { d with defaultPrevented := true }
  | .setStatus t => { d with statusText := t }
  | .resetForm => { d with nameField := "", emailField := "", messageField := "" }

/-- Running the submit handler: interpret its effect trace over the
initial DOM state. -/
def runSubmit (d : FormDom) : FormDom :=
  (submitHandlerTrace d).foldl applyFormEffect d

/-- A `.progress` element: only its `style.width` string is relevant. -/
structure ProgressBar where
  width : String
deriving DecidableEq, Repr

/-- A pending `setTimeout` callback: it fires after `delay` milliseconds
and writes `newWidth` to the bar at position `barIdx` of the node list
(positions model element identity, which the script never changes). -/
structure TimerTask where
  delay : Nat
  barIdx : Nat
  newWidth : String
deriving DecidableEq, Repr

/-- The `bars.forEach` loop of the `DOMContentLoaded` handler, with `k`
the position of the first remaining bar: per bar, capture `width`, set
the width to `'0%'`, and schedule a 300 ms timeout restoring `width`. -/
def processBars : Nat → List ProgressBar → List ProgressBar × List TimerTask
  | _, [] => ([], [])
  | k, bar :: rest =>
    let width := bar.width
    let r := processBars (k + 1) rest
    ({ width := "0%" } :: r.1,
     { delay := 300, barIdx := k, newWidth := width } :: r.2)

/-- The `DOMContentLoaded` handler of `contact.js`: process every matched
`.progress` element, returning the immediately reset bars and the list of
scheduled timer tasks. -/
def domContentLoaded (bars : List ProgressBar) :
    List ProgressBar × List TimerTask :=
  processBars 0 bars

/-- Firing one timer task: write its captured width to its bar. -/
def fireTimer (bars : List ProgressBar) (t : TimerTask) : List ProgressBar :=
  bars.set t.barIdx { width := t.newWidth }

/-- Firing every scheduled timer task. -/
def fireAllTimers (bars : List ProgressBar) (ts : List TimerTask) :
    List ProgressBar :=
  ts.foldl fireTimer bars

/-- The bars observable after the delay has elapsed on every element. -/
def barsAfterDelay (bars : List ProgressBar) : List ProgressBar :=
  fireAllTimers (domContentLoaded bars).1 (domContentLoaded bars).2

/-! ## Helper lemmas -/

/-- A string all of whose characters are whitespace trims to the empty
string under the JavaScript trim model. -/
theorem jsTrim_eq_empty_of_all_whitespace (s : String)
    (h : ∀ c ∈ s.data, c.isWhitespace) : jsTrim s = "" := by
  unfold jsTrim
  have h1 : s.data.dropWhile Char.isWhitespace = [] :=
    List.dropWhile_eq_nil_iff.mpr h
  rw [h1]
  rfl

/-- Running the submit handler on the failure branch. -/
theorem runSubmit_fail (d : FormDom)
    (h : jsTrim d.nameField = "" ∨ jsTrim d.emailField = "" ∨
      jsTrim d.messageField = "") :
    runSubmit d =
      { d with statusText := "Please fill in all fields.",
               defaultPrevented := true } := by
  unfold runSubmit submitHandlerTrace
  simp only [if_pos h]
  rfl

/-- Running the submit handler on the success branch. -/
theorem runSubmit_success (d : FormDom)
    (h1 : jsTrim d.nameField ≠ "") (h2 : jsTrim d.emailField ≠ "")
    (h3 : jsTrim d.messageField ≠ "") :
    runSubmit d =
      { nameField := "", emailField := "", messageField := "",
        statusText := "Thank you for reaching out!",
        defaultPrevented := true } := by
  unfold runSubmit submitHandlerTrace
  have hcond : ¬ (jsTrim d.nameField = "" ∨ jsTrim d.emailField = "" ∨
      jsTrim d.messageField = "") := by
    push_neg
    exact ⟨h1, h2, h3⟩
  simp only [if_neg hcond]
  rfl

/-! ## Form claims -/

/-- C1: For every submission in which the name, email, and message field
values are each non-empty after trimming, the handler sets the status
node's text to "Thank you for reaching out!" and clears all three form
fields back to empty. -/
theorem submit_success_status_and_clear (d : FormDom)
    (h1 : jsTrim d.nameField ≠ "") (h2 : jsTrim d.emailField ≠ "")
    (h3 : jsTrim d.messageField ≠ "") :
    (runSubmit d).statusText = "Thank you for reaching out!" ∧
    (runSubmit d).nameField = "" ∧ (runSubmit d).emailField = "" ∧
    (runSubmit d).messageField = "" := by
  rw [runSubmit_success d h1 h2 h3]
  exact ⟨rfl, rfl, rfl, rfl⟩

/-- Witness for C1 on the spec scenario name="Ada",
email="ada@example.com", message="Hello". -/
theorem submit_success_status_and_clear_witness :
    (runSubmit ⟨"Ada", "ada@example.com", "Hello", "", false⟩).statusText =
      "Thank you for reaching out!" ∧
    (runSubmit ⟨"Ada", "ada@example.com", "Hello", "", false⟩).nameField = "" ∧
    (runSubmit ⟨"Ada", "ada@example.com", "Hello", "", false⟩).emailField = "" ∧
    (runSubmit ⟨"Ada", "ada@example.com", "Hello", "", false⟩).messageField = "" :=
  submit_success_status_and_clear ⟨"Ada", "ada@example.com", "Hello", "", false⟩
    (by decide) (by decide) (by decide)

/-- C2: For every submission in which at least one of the three trimmed
field values is empty, the handler sets the status node's text to
"Please fill in all fields." and leaves all three form fields holding
their entered values. -/
theorem submit_fail_status_and_retain (d : FormDom)
    (h : jsTrim d.nameField = "" ∨ jsTrim d.emailField = "" ∨
      jsTrim d.messageField = "") :
    (runSubmit d).statusText = "Please fill in all fields." ∧
    (runSubmit d).nameField = d.nameField ∧
    (runSubmit d).emailField = d.emailField ∧
    (runSubmit d).messageField = d.messageField := by
  rw [runSubmit_fail d h]
  exact ⟨rfl, rfl, rfl, rfl⟩

/-- Witness for C2 on the spec scenario name="", email="x@y.com",
message="Hi". -/
theorem submit_fail_status_and_retain_witness :
    (runSubmit ⟨"", "x@y.com", "Hi", "", false⟩).statusText =
      "Please fill in all fields." ∧
    (runSubmit ⟨"", "x@y.com", "Hi", "", false⟩).nameField = "" ∧
    (runSubmit ⟨"", "x@y.com", "Hi", "", false⟩).emailField = "x@y.com" ∧
    (runSubmit ⟨"", "x@y.com", "Hi", "", false⟩).messageField = "Hi" :=
  submit_fail_status_and_retain ⟨"", "x@y.com", "Hi", "", false⟩
    (Or.inl (by decide))

/-- C3: On every submission event, regardless of the validation outcome,
the handler suppresses the default submission behavior: the
`preventDefault` effect is the first effect of the trace, and after
running the handler the default is marked prevented. -/
theorem submit_always_prevents_default (d : FormDom) :
    (submitHandlerTrace d).head? = some FormEffect.preventDefault ∧
    (runSubmit d).defaultPrevented = true := by
  by_cases h : jsTrim d.nameField = "" ∨ jsTrim d.emailField = "" ∨
    jsTrim d.messageField = ""
  · refine ⟨?_, ?_⟩
    · unfold submitHandlerTrace
      simp only [if_pos h]
      rfl
    · rw [runSubmit_fail d h]
  · refine ⟨?_, ?_⟩
    · unfold submitHandlerTrace
      simp only [if_neg h]
      rfl
    · push_neg at h
      rw [runSubmit_success d h.1 h.2.1 h.2.2]

/-- C5: For every submission in which the name, email, or message value
consists only of whitespace characters, that value trims to the empty
string and the submission takes the failure path with the error status
message. -/
theorem submit_whitespace_only_fails (d : FormDom) (f : String)
    (hf : f = d.nameField ∨ f = d.emailField ∨ f = d.messageField)
    (hw : ∀ c ∈ f.data, c.isWhitespace) :
    jsTrim f = "" ∧
    (runSubmit d).statusText = "Please fill in all fields." := by
  have ht : jsTrim f = "" := jsTrim_eq_empty_of_all_whitespace f hw
  refine ⟨ht, ?_⟩
  have h : jsTrim d.nameField = "" ∨ jsTrim d.emailField = "" ∨
      jsTrim d.messageField = "" := by
    rcases hf with h | h | h
    · exact Or.inl (h ▸ ht)
    · exact Or.inr (Or.inl (h ▸ ht))
    · exact Or.inr (Or.inr (h ▸ ht))
  rw [runSubmit_fail d h]

/-- Witness for C5: a name field holding three spaces. -/
theorem submit_whitespace_only_fails_witness :
    jsTrim "   " = "" ∧
    (runSubmit ⟨"   ", "x@y.com", "Hi", "", false⟩).statusText =
      "Please fill in all fields." :=
  submit_whitespace_only_fails ⟨"   ", "x@y.com", "Hi", "", false⟩ "   "
    (Or.inl rfl) (by decide)

/-- C6: On every submission event, exactly one status write occurs in the
effect trace, and the form-reset effect occurs exactly when all three
trimmed fields are non-empty (success); the trace holds no other effect
beyond the unconditional `preventDefault`. -/
theorem submit_effect_frame (d : FormDom) :
    (submitHandlerTrace d).countP FormEffect.isStatusWrite = 1 ∧
    (FormEffect.resetForm ∈ submitHandlerTrace d ↔
      (jsTrim d.nameField ≠ "" ∧ jsTrim d.emailField ≠ "" ∧
        jsTrim d.messageField ≠ "")) ∧
    ∀ e ∈ submitHandlerTrace d,
      e = FormEffect.preventDefault ∨ e.isStatusWrite = true ∨
        e = FormEffect.resetForm := by
  by_cases h : jsTrim d.nameField = "" ∨ jsTrim d.emailField = "" ∨
    jsTrim d.messageField = ""
  · refine ⟨?_, ?_, ?_⟩
    · unfold submitHandlerTrace
      rw [if_pos h]
      rfl
    · unfold submitHandlerTrace
      rw [if_pos h]
      constructor
      · intro hm
        exact absurd hm (by decide)
      · intro hc
        rcases h with h | h | h
        · exact absurd h hc.1
        · exact absurd h hc.2.1
        · exact absurd h hc.2.2
    · unfold submitHandlerTrace
      rw [if_pos h]
      intro e he
      rcases List.mem_cons.mp he with he | he
      · exact Or.inl he
      · rcases List.mem_cons.mp he with he | he
        · exact Or.inr (Or.inl (by rw [he]; rfl))
        · exact absurd he (by simp)
  · refine ⟨?_, ?_, ?_⟩
    · unfold submitHandlerTrace
      rw [if_neg h]
      rfl
    · unfold submitHandlerTrace
      rw [if_neg h]
      push_neg at h
      constructor
      · intro _
        exact h
      · intro _
        decide
    · unfold submitHandlerTrace
      rw [if_neg h]
      intro e he
      rcases List.mem_cons.mp he with he | he
      · exact Or.inl he
      · rcases List.mem_cons.mp he with he | he
        · exact Or.inr (Or.inl (by rw [he]; rfl))
        · rcases List.mem_cons.mp he with he | he
          · exact Or.inr (Or.inr he)
          · exact absurd he (by simp)

/-- C9: The submit handler is deterministic in the three field values:
two submissions with identical name, email and message strings produce
the same effect trace (same branch, same status text, same reset
decision), whatever the rest of the DOM state. -/
theorem submit_deterministic (d1 d2 : FormDom)
    (h1 : d1.nameField = d2.nameField) (h2 : d1.emailField = d2.emailField)
    (h3 : d1.messageField = d2.messageField) :
    submitHandlerTrace d1 = submitHandlerTrace d2 := by
  unfold submitHandlerTrace
  rw [h1, h2, h3]

/-- Witness for C9: two DOM states sharing field values but differing in
status text and prevented flag. -/
theorem submit_deterministic_witness :
    submitHandlerTrace ⟨"a", "b", "c", "", false⟩ =
      submitHandlerTrace ⟨"a", "b", "c", "old status", true⟩ :=
  submit_deterministic ⟨"a", "b", "c", "", false⟩
    ⟨"a", "b", "c", "old status", true⟩ rfl rfl rfl

/-! ## Progress-bar helper lemmas -/

/-- Structure eta for bars: rebuilding a bar from its width gives it back. -/
theorem ProgressBar.mk_width (b : ProgressBar) : ProgressBar.mk b.width = b :=
  rfl

/-- The immediate effect of the `forEach` loop: every processed bar has
its width set to the literal `'0%'`. -/
theorem processBars_fst (k : Nat) (bars : List ProgressBar) :
    (processBars k bars).1 =
      bars.map (fun _ => { width := "0%" } : ProgressBar → ProgressBar) := by
  induction bars generalizing k with
  | nil => rfl
  | cons b rest ih =>
    simp only [processBars, List.map_cons, List.cons.injEq]
    exact ⟨trivial, ih (k + 1)⟩

/-- Every timer task scheduled by the loop carries the 300 ms delay. -/
theorem processBars_delay (k : Nat) (bars : List ProgressBar) :
    ∀ t ∈ (processBars k bars).2, t.delay = 300 := by
  induction bars generalizing k with
  | nil =>
    intro t ht
    exact absurd ht (by simp [processBars])
  | cons b rest ih =>
    intro t ht
    rcases List.mem_cons.mp ht with h | h
    · rw [h]
    · exact ih (k + 1) t h

/-- Setting position `k` and taking `k + 1` elements splits off the new
element. -/
theorem take_set_succ {α : Type} (zs : List α) (k : Nat) (a : α)
    (h : k < zs.length) :
    (zs.set k a).take (k + 1) = zs.take k ++ [a] := by
  induction zs generalizing k with
  | nil => exact absurd h (by simp)
  | cons z rest ih =>
    cases k with
    | zero => rfl
    | succ k =>
      rw [List.set_cons_succ, List.take_succ_cons, List.take_succ_cons,
        ih k (by simpa using h), List.cons_append]

/-- Firing, in scheduling order, every timer task produced by the loop
from position `k` restores the original bars at positions `k` and above,
for any intermediate state `zs` of the right length. -/
theorem foldl_fireTimer_processBars (bars : List ProgressBar) :
    ∀ (k : Nat) (zs : List ProgressBar), zs.length = k + bars.length →
      List.foldl fireTimer zs (processBars k bars).2 = zs.take k ++ bars := by
  induction bars with
  | nil =>
    intro k zs h
    simp only [List.length_nil, Nat.add_zero] at h
    simp only [processBars, List.foldl_nil, List.append_nil]
    rw [← h, List.take_length]
  | cons b rest ih =>
    intro k zs h
    have hk : k < zs.length := by
      rw [h, List.length_cons]
      omega
    have hstep : fireTimer zs { delay := 300, barIdx := k, newWidth := b.width } =
        zs.set k b := rfl
    calc List.foldl fireTimer zs (processBars k (b :: rest)).2
        = List.foldl fireTimer (zs.set k b) (processBars (k + 1) rest).2 := by
          simp only [processBars, List.foldl_cons, hstep]
      _ = (zs.set k b).take (k + 1) ++ rest := by
          refine ih (k + 1) (zs.set k b) ?_
          rw [List.length_set, h, List.length_cons]
          omega
      _ = (zs.take k ++ [b]) ++ rest := by rw [take_set_succ zs k b hk]
      _ = zs.take k ++ b :: rest := by
          rw [List.append_assoc, List.singleton_append]

/-- Once every scheduled timer has fired, the bars hold exactly their
original (captured) widths again. -/
theorem barsAfterDelay_eq (bars : List ProgressBar) :
    barsAfterDelay bars = bars := by
  unfold barsAfterDelay domContentLoaded fireAllTimers
  rw [foldl_fireTimer_processBars bars 0 (processBars 0 bars).1
    (by rw [processBars_fst]; simp)]
  simp

/-! ## Progress-bar claims -/

/-- C4: For every progress element present at page-ready time, the
animator immediately sets its width to zero, every scheduled restoration
is deferred by the fixed 300 ms delay, and after the timers fire the
element's width is back to its captured pre-reset value. -/
theorem progress_reset_then_restore (bars : List ProgressBar) (i : Nat)
    (h : i < bars.length) :
    ((domContentLoaded bars).1).get? i = some { width := "0%" } ∧
    (∀ t ∈ (domContentLoaded bars).2, t.delay = 300) ∧
    (barsAfterDelay bars).get? i = some (bars.get ⟨i, h⟩) := by
  refine ⟨?_, processBars_delay 0 bars, ?_⟩
  · unfold domContentLoaded
    rw [processBars_fst, List.get?_map, List.get?_eq_get h]
    rfl
  · rw [barsAfterDelay_eq]
    exact List.get?_eq_get h

/-- Witness for C4 on the spec scenario: a single bar configured at
"75%". -/
theorem progress_reset_then_restore_witness :
    ((domContentLoaded [⟨"75%"⟩]).1).get? 0 = some { width := "0%" } ∧
    (∀ t ∈ (domContentLoaded [⟨"75%"⟩]).2, t.delay = 300) ∧
    (barsAfterDelay [⟨"75%"⟩]).get? 0 =
      some (([⟨"75%"⟩] : List ProgressBar).get ⟨0, by decide⟩) :=
  progress_reset_then_restore [⟨"75%"⟩] 0 (by decide)

/-- C7: For every progress element whose configured width is the empty
(unset) value at capture time, the value restored after the delay is
exactly that empty captured value, with no substitution applied. -/
theorem progress_empty_width_restored (bars : List ProgressBar) (i : Nat)
    (h : i < bars.length) (hw : (bars.get ⟨i, h⟩).width = "") :
    (barsAfterDelay bars).get? i = some { width := "" } := by
  have hb : bars.get ⟨i, h⟩ = { width := "" } := by
    conv_lhs => rw [← ProgressBar.mk_width (bars.get ⟨i, h⟩)]
    rw [hw]
  rw [barsAfterDelay_eq, List.get?_eq_get h, hb]

/-- Witness for C7: a single bar with an empty configured width. -/
theorem progress_empty_width_restored_witness :
    (barsAfterDelay [⟨""⟩]).get? 0 = some { width := "" } :=
  progress_empty_width_restored [⟨""⟩] 0 (by decide) (by decide)

/-- C8: When zero elements match the `.progress` selector at page-ready
time, the animator mutates no widths and schedules no timer tasks, and
the after-delay state is likewise empty. -/
theorem progress_no_bars_no_op :
    domContentLoaded [] = ([], []) ∧ barsAfterDelay [] = [] :=
  ⟨rfl, rfl⟩

/-- C10: The reset writes the literal `'0%'` to every matched element
regardless of the captured width's unit, and the restored value equals
`'0%'` exactly when the element's original width was `'0%'`. -/
theorem progress_reset_literal_restore_faithful (bars : List ProgressBar)
    (i : Nat) (h : i < bars.length) :
    ((domContentLoaded bars).1).get? i = some { width := "0%" } ∧
    ((barsAfterDelay bars).get? i = some { width := "0%" } ↔
      (bars.get ⟨i, h⟩).width = "0%") := by
  refine ⟨?_, ?_⟩
  · unfold domContentLoaded
    rw [processBars_fst, List.get?_map, List.get?_eq_get h]
    rfl
  · rw [barsAfterDelay_eq, List.get?_eq_get h, Option.some_inj]
    constructor
    · intro he
      rw [he]
    · intro hw
      conv_lhs => rw [← ProgressBar.mk_width (bars.get ⟨i, h⟩)]
      rw [hw]

/-- Witness for C10: a single bar configured in pixels ("120px") is also
reset to "0%", and its restored value is not "0%". -/
theorem progress_reset_literal_restore_faithful_witness :
    ((domContentLoaded [⟨"120px"⟩]).1).get? 0 = some { width := "0%" } ∧
    ((barsAfterDelay [⟨"120px"⟩]).get? 0 = some { width := "0%" } ↔
      (([⟨"120px"⟩] : List ProgressBar).get ⟨0, by decide⟩).width = "0%") :=
  progress_reset_literal_restore_faithful [⟨"120px"⟩] 0 (by decide)
